import Mathlib

/-!
Verification of the natural-language specification of a small git
implementation (object store, tree codec, packfile parser, smart-HTTP
clone driver) against a shallow embedding of its source.

Conventions of the embedding:
* Byte sequences (`Vec<u8>`, `&[u8]`) are `List Nat`, each element a byte
  value; bitwise operations of the source are expressed through `%`, `/`
  and `*` on `Nat` (for a value below 256 they agree with the `u8`
  operations of the source).
* External primitives that the specification declares out of scope
  (zlib codec, SHA-1, filesystem, HTTP) are elided: functions whose
  source first inflates a zlib stream are modelled on the decompressed
  bytes, the SHA-1 hash is an explicit function parameter, and
  filesystem or network effects are modelled by an environment record
  together with an explicit trace of performed actions.
* Fallible Rust code (`anyhow::Result`, panics, out-of-bounds slices)
  is modelled with `Except`/`Option`; a panic is a distinguished error
  constructor, kept separate from `Err` return values.
-/

/-- `iter().position(|c| *c == a)` on a byte slice. -/
def position (a : Nat) : List Nat → Option Nat
  | [] => none
  | b :: bs => if b = a then some 0 else (position a bs).map (· + 1)

/-- Continuation byte of a UTF-8 sequence: `0x80..=0xBF`. -/
def utf8Cont (b : Nat) : Bool := decide (128 ≤ b ∧ b < 192)

/-- UTF-8 validity of a byte sequence, as checked by `str::from_utf8` /
`String::from_utf8` in the source (RFC 3629: no overlong forms, no
surrogates, maximum U+10FFFF). -/
def isValidUtf8 : List Nat → Bool
  | [] => true
  | b :: rest =>
    if b < 128 then isValidUtf8 rest
    else if 194 ≤ b ∧ b ≤ 223 then
      match rest with
      | c1 :: r => utf8Cont c1 && isValidUtf8 r
      | [] => false
    else if b = 224 then
      match rest with
      | c1 :: c2 :: r => decide (160 ≤ c1 ∧ c1 < 192) && utf8Cont c2 && isValidUtf8 r
      | _ => false
    else if 225 ≤ b ∧ b ≤ 236 then
      match rest with
      | c1 :: c2 :: r => utf8Cont c1 && utf8Cont c2 && isValidUtf8 r
      | _ => false
    else if b = 237 then
      match rest with
      | c1 :: c2 :: r => decide (128 ≤ c1 ∧ c1 < 160) && utf8Cont c2 && isValidUtf8 r
      | _ => false
    else if 238 ≤ b ∧ b ≤ 239 then
      match rest with
      | c1 :: c2 :: r => utf8Cont c1 && utf8Cont c2 && isValidUtf8 r
      | _ => false
    else if b = 240 then
      match rest with
      | c1 :: c2 :: c3 :: r =>
        decide (144 ≤ c1 ∧ c1 < 192) && utf8Cont c2 && utf8Cont c3 && isValidUtf8 r
      | _ => false
    else if 241 ≤ b ∧ b ≤ 243 then
      match rest with
      | c1 :: c2 :: c3 :: r => utf8Cont c1 && utf8Cont c2 && utf8Cont c3 && isValidUtf8 r
      | _ => false
    else if b = 244 then
      match rest with
      | c1 :: c2 :: c3 :: r =>
        decide (128 ≤ c1 ∧ c1 < 144) && utf8Cont c2 && utf8Cont c3 && isValidUtf8 r
      | _ => false
    else false

/-- `ObjectKind` of `object.rs` (also `Kind` of `lib.rs`): blob, tree, commit. -/
inductive ObjectKind
  | blob
  | tree
  | commit
deriving DecidableEq

/-- ASCII bytes of the display form of an `ObjectKind`
(`blob` / `tree` / `commit`). -/
def kindBytes : ObjectKind → List Nat
  | .blob => [98, 108, 111, 98]
  | .tree => [116, 114, 101, 101]
  | .commit => [99, 111, 109, 109, 105, 116]

/-- An object of the store: a kind together with its body bytes
(`struct Object` of `object.rs`). -/
structure Object where
  kind : ObjectKind
  body : List Nat
deriving DecidableEq

/-- Error kinds of the object codec; `panicked` marks a Rust panic
(index underflow or out-of-bounds slice) as opposed to an `Err` return. -/
inductive LoadErr
  | badKind
  | malformed
  | badLength
  | eof
  | panicked
deriving DecidableEq

/-- `ObjectKind::try_from(&[u8])` (object.rs, also `Kind::try_from` of
lib.rs): the bytes must equal one of the three kind names; a non-matching
or non-UTF-8 byte string is an error (both error messages collapse into
`badKind` here). -/
def kind_try_from (v : List Nat) : Except LoadErr ObjectKind :=
  if v = kindBytes .blob then .ok .blob
  else if v = kindBytes .tree then .ok .tree
  else if v = kindBytes .commit then .ok .commit
  else .error .badKind

/-- `Object::load` of lib.rs, modelled on the zlib-decompressed buffer
(the file open and inflation of lines 41-47 are external): scan for the
first space, parse the kind from the bytes before it, scan for the first
NUL, and return everything after it as the body. -/
def Object.load (buf : List Nat) : Except LoadErr Object :=
  match position 32 buf with
  | none => .error .malformed
  | some sp =>
    match kind_try_from (buf.take sp) with
    | .error e => .error e
    | .ok kind =>
      match position 0 buf with
      | none => .error .malformed
      | some nz => .ok ⟨kind, buf.drop (nz + 1)⟩

/-- `BufRead::read_until(delim)` on a byte stream: the returned chunk
includes the delimiter when it is found, otherwise the whole remaining
stream; also returns the rest of the stream. -/
def read_until (delim : Nat) (s : List Nat) : List Nat × List Nat :=
  match position delim s with
  | some i => (s.take (i + 1), s.drop (i + 1))
  | none => (s, [])

/-- One decimal digit. -/
def decDigit? (c : Nat) : Option Nat :=
  if 48 ≤ c ∧ c ≤ 57 then some (c - 48) else none

/-- Nonempty run of decimal digits, most significant first. -/
def parseDigits : Nat → List Nat → Option Nat
  | _, [] => none
  | acc, [c] => (decDigit? c).map (acc * 10 + ·)
  | acc, c :: cs =>
    match decDigit? c with
    | some d => parseDigits (acc * 10 + d) cs
    | none => none

/-- `str::parse::<usize>()` composed with `str::from_utf8`: an optional
leading `+` sign followed by at least one decimal digit (`Nat` carries no
overflow; declared lengths in this code are small). Any other byte —
including one making the string invalid UTF-8 — is an error. -/
def parseDecimal (s : List Nat) : Option Nat :=
  match s with
  | [] => none
  | c :: rest => if c = 43 then parseDigits 0 rest else parseDigits 0 (c :: rest)

/-- `Object::new_object_from` of object.rs, modelled on the
zlib-decompressed stream (the `ZlibDecoder` of lines 56-57 is external):
`read_until(b' ')` for the kind (dropping the final byte), `read_until(0)`
for the declared decimal size (dropping the final byte), then
`read_exact` of exactly `size` bytes as the body — extra bytes are left
unread and a shorter stream is an `eof` error. An empty chunk makes the
source compute `buf.len() - 1` on length 0, a panic. -/
def Object.new_object_from (buf : List Nat) : Except LoadErr Object :=
  match read_until 32 buf with
  | (kbuf, s1) =>
    if kbuf = [] then .error .panicked
    else
      match kind_try_from kbuf.dropLast with
      | .error e => .error e
      | .ok kind =>
        match read_until 0 s1 with
        | (zbuf, s2) =>
          if zbuf = [] then .error .panicked
          else
            match parseDecimal zbuf.dropLast with
            | none => .error .badLength
            | some size =>
              if size ≤ s2.length then .ok ⟨kind, s2.take size⟩
              else .error .eof

/-- MSB test on a byte: for a `u8` value this is `b & 0x80 != 0`. -/
def msb (b : Nat) : Bool := decide (128 ≤ b)

/-- The source-size / target-size skip loops of `calculate_delta`
(packet.rs lines 124-133): advance while the MSB is set, then skip one
more byte; reading past the end of the buffer is a panic (`none`). -/
def skipVarint : List Nat → Option (List Nat)
  | [] => none
  | b :: rest => if msb b then skipVarint rest else some rest

/-- Both size headers of a delta payload skipped in sequence. -/
def skipSizes (buf : List Nat) : Option (List Nat) :=
  (skipVarint buf).bind skipVarint

/-- The offset / length assembly loops of a delta copy instruction
(packet.rs lines 148-177): iterate `k` times over the low opcode bits;
when a bit is set consume one byte and add it shifted by the running
shift amount, which grows by 8 every iteration whether or not a byte was
consumed. Reading past the end of the buffer is a panic (`none`). -/
def assembleField : Nat → Nat → Nat → List Nat → Option (Nat × List Nat)
  | 0, _, _, rem => some (0, rem)
  | k + 1, opcode, shift, rem =>
    if opcode % 2 = 1 then
      match rem with
      | [] => none
      | byte :: rest =>
        match assembleField k (opcode / 2) (shift + 8) rest with
        | none => none
        | some (v, r) => some (v + byte * 2 ^ shift, r)
    else assembleField k (opcode / 2) (shift + 8) rem

/-- Error kinds of the packfile parser; `missingBase` carries the base
hash of an unresolved ref-delta, `panicked` marks an out-of-bounds slice
or index of the source. -/
inductive DErr
  | missingBase (h : List Nat)
  | panicked
deriving DecidableEq

/-- The instruction loop of `calculate_delta` (packet.rs lines 140-187):
a copy instruction (MSB set) assembles an offset from the low four
opcode bits and a length from the next three, then appends
`base[ofset..ofset+len]`; an insert instruction (MSB clear) appends the
next `instruction` literal bytes. Out-of-range slices panic. Fuel is one
more than the buffer length, enough because every iteration consumes at
least the instruction byte. -/
def deltaLoop : Nat → List Nat → List Nat → List Nat → Except DErr (List Nat)
  | _, [], _, acc => .ok acc
  | 0, _ :: _, _, _ => .error .panicked
  | fuel + 1, instr :: rest, base, acc =>
    if msb instr then
      match assembleField 4 (instr % 16) 0 rest with
      | none => .error .panicked
      | some (ofset, rest1) =>
        match assembleField 3 (instr / 16 % 8) 0 rest1 with
        | none => .error .panicked
        | some (len, rest2) =>
          if ofset + len ≤ base.length then
            deltaLoop fuel rest2 base (acc ++ (base.drop ofset).take len)
          else .error .panicked
    else
      if instr ≤ rest.length then
        deltaLoop fuel (rest.drop instr) base (acc ++ rest.take instr)
      else .error .panicked

/-- The pack object map, `HashMap<[u8; 20], Object>` of `struct Packet`,
as an association list keyed by hash bytes. -/
abbrev ObjMap : Type := List (List Nat × Object)

/-- `HashMap::get`. -/
def mapLookup : ObjMap → List Nat → Option Object
  | [], _ => none
  | (k, v) :: rest, key => if k = key then some v else mapLookup rest key

/-- `HashMap::insert`: replace the binding of an existing key, otherwise
add a new one. -/
def mapInsert : ObjMap → List Nat → Object → ObjMap
  | [], key, v => [(key, v)]
  | (k, w) :: rest, key, v =>
    if k = key then (key, v) :: rest else (k, w) :: mapInsert rest key v

/-- `calculate_delta` of packet.rs, modelled on the zlib-decompressed
delta payload (lines 112-118, inflation and the compressed-byte count,
are external; `baseHash` is the 20 bytes read before the zlib stream):
skip the two size headers, look the base up in the pack map — a missing
base is the `failed to find object` error — then run the instruction
loop. The produced object is given kind `Blob` by line 189 of the
source, whatever the kind of the base. -/
def calculate_delta (buf : List Nat) (baseHash : List Nat) (objects : ObjMap) :
    Except DErr Object :=
  match skipVarint buf with
  | none => .error .panicked
  | some r1 =>
    match skipVarint r1 with
    | none => .error .panicked
    | some r2 =>
      match mapLookup objects baseHash with
      | none => .error (.missingBase baseHash)
      | some baseObj =>
        match deltaLoop (r2.length + 1) r2 baseObj.body [] with
        | .ok body => .ok ⟨.blob, body⟩
        | .error e => .error e

/-- The variable-length size loop of the pack object header
(packet.rs lines 68-76): starting from the low four bits of the first
byte with a shift of 4, every continuation byte (previous byte had its
MSB set) contributes its low seven bits shifted by the running amount,
and the source then grows the shift by 8. Returns the size and the index
one past the last header byte. -/
def sizeLoop : Nat → List Nat → Nat → Nat → Nat → Nat → Option (Nat × Nat)
  | 0, _, _, _, _, _ => none
  | fuel + 1, raw, ptr, cur, acc, shift =>
    if msb cur then
      match raw.get? (ptr + 1) with
      | none => none
      | some b => sizeLoop fuel raw (ptr + 1) b (acc + b % 128 * 2 ^ shift) (shift + 8)
    else some (acc, ptr + 1)

/-- The pack object header decode of `Packet::try_from`
(packet.rs lines 66-77): type code from bits 4-6 of the first byte, size
from the variable-length loop. Returns `(typeCode, size, ptrAfter)`;
an index past the end of the buffer is a panic (`none`). -/
def decodeObjHeader (raw : List Nat) (ptr : Nat) : Option (Nat × Nat × Nat) :=
  match raw.get? ptr with
  | none => none
  | some b0 =>
    match sizeLoop (raw.length + 1) raw ptr b0 (b0 % 16) 4 with
    | none => none
    | some (len, ptrAfter) => some (b0 % 128 / 16, len, ptrAfter)

/-- `NodeKind` of object.rs: directory, file or symlink, each carrying
its filesystem mode. -/
inductive NodeKind
  | dir (mode : Nat)
  | file (mode : Nat)
  | symlink (mode : Nat)
deriving DecidableEq

/-- The common `mode()` accessor of `NodeKind`. -/
def NodeKind.mode : NodeKind → Nat
  | .dir m => m
  | .file m => m
  | .symlink m => m

/-- `Node` of object.rs: name bytes, kind, 20-byte child hash. -/
structure Node where
  name : List Nat
  kind : NodeKind
  hash : List Nat
deriving DecidableEq

/-- `Tree` of object.rs: the ordered node list of a tree body. -/
structure GitTree where
  nodes : List Node
deriving DecidableEq

/-- Error kinds of the tree parser; `panicked` covers the
`panic!("malformed tree")` of a missing NUL and the out-of-bounds
hash slice, `badUtf8` the `str::from_utf8` failures on mode or name. -/
inductive TreeErr
  | badUtf8
  | malformedNode
  | panicked
  | outOfFuel
deriving DecidableEq

/-- The mode match of `Tree::try_from` (object.rs lines 165-171), in
source order: `40000` → dir, `120000` → symlink, `100644` / `100755` →
file; anything else is the `malformed tree node` error. The stored modes
are the octal literals of the source. -/
def modeToKind (m : List Nat) : Option NodeKind :=
  if m = [52, 48, 48, 48, 48] then some (.dir 16384)
  else if m = [49, 50, 48, 48, 48, 48] then some (.symlink 40960)
  else if m = [49, 48, 48, 54, 52, 52] then some (.file 33188)
  else if m = [49, 48, 48, 55, 53, 53] then some (.file 33261)
  else none

/-- The node loop of `Tree::try_from` (object.rs lines 154-176): scan to
the first space (no space ends the loop), check the mode bytes are UTF-8,
scan to the first NUL (none is a panic), check the name bytes are UTF-8,
take 20 hash bytes (too few is a panic), map the mode string to a kind,
and continue on the rest. Fuel is one more than the body length, enough
because every node consumes at least 22 bytes. -/
def parseTreeNodes : Nat → List Nat → Except TreeErr (List Node)
  | 0, _ => .error .outOfFuel
  | fuel + 1, body =>
    match position 32 body with
    | none => .ok []
    | some sp =>
      if isValidUtf8 (body.take sp) then
        match position 0 (body.drop (sp + 1)) with
        | none => .error .panicked
        | some nz =>
          if isValidUtf8 ((body.drop (sp + 1)).take nz) then
            if 20 ≤ ((body.drop (sp + 1)).drop (nz + 1)).length then
              match modeToKind (body.take sp) with
              | none => .error .malformedNode
              | some kind =>
                match parseTreeNodes fuel (((body.drop (sp + 1)).drop (nz + 1)).drop 20) with
                | .ok nodes =>
                  .ok (⟨(body.drop (sp + 1)).take nz, kind,
                        ((body.drop (sp + 1)).drop (nz + 1)).take 20⟩ :: nodes)
                | .error e => .error e
            else .error .panicked
          else .error .badUtf8
      else .error .badUtf8

/-- `Tree::try_from(Object)` of object.rs: parse the body (the object
kind is not inspected by the source). -/
def GitTree.tryFrom (obj : Object) : Except TreeErr GitTree :=
  match parseTreeNodes (obj.body.length + 1) obj.body with
  | .ok nodes => .ok ⟨nodes⟩
  | .error e => .error e

/-- Octal ASCII digits, accumulator form. -/
def octalAsciiAux : Nat → Nat → List Nat → List Nat
  | 0, _, acc => acc
  | fuel + 1, n, acc =>
    if n = 0 then acc else octalAsciiAux fuel (n / 8) ((48 + n % 8) :: acc)

/-- `format!("{mode:o}")`: the mode in octal ASCII with no leading zero
(and `0` for mode 0). -/
def octalAscii (n : Nat) : List Nat :=
  if n = 0 then [48] else octalAsciiAux (n + 1) n []

/-- One serialized tree entry as `write_tree` of main.rs emits it
(line 164-165): `<mode octal> <name>\0<hash>`. -/
def emitNode (n : Node) : List Nat :=
  octalAscii n.kind.mode ++ 32 :: (n.name ++ 0 :: n.hash)

/-- Concatenation of the serialized entries, the tree body built by
`write_tree`. -/
def emitNodes : List Node → List Nat
  | [] => []
  | n :: rest => emitNode n ++ emitNodes rest

/-- The tree body of a `GitTree`. -/
def emitTree (t : GitTree) : List Nat := emitNodes t.nodes

/-- The four canonical mode values of the specification
(`40000`, `100644`, `100755`, `120000` in octal). -/
def canonicalKind : NodeKind → Bool
  | .dir m => m == 16384
  | .file m => m == 33188 || m == 33261
  | .symlink m => m == 40960

/-- One entry of the pack stream as the loop of `Packet::try_from`
(packet.rs lines 65-104) sees it after the external parts are done: a
non-delta object carries its kind (the type-code mapping of lines
435-447, with tag coerced to commit) and its zlib-decompressed body; a
ref-delta carries the 20 base-hash bytes and its decompressed delta
payload. The byte-cursor arithmetic and inflation are external. -/
inductive PackEntry
  | full (kind : ObjectKind) (body : List Nat)
  | refDelta (baseHash : List Nat) (buf : List Nat)

/-- One iteration of the `Packet::try_from` loop: build the object (for
a ref-delta, by `calculate_delta` against the map built so far) and
insert it keyed by its hash (`packet.objects.insert(obj.hash(), obj)`,
line 102). `hashFn` is the external SHA-1 of the framed object. -/
def stepEntry (hashFn : Object → List Nat) (m : ObjMap) : PackEntry → Except DErr ObjMap
  | .full kind body => .ok (mapInsert m (hashFn ⟨kind, body⟩) ⟨kind, body⟩)
  | .refDelta baseHash buf =>
    match calculate_delta buf baseHash m with
    | .ok obj => .ok (mapInsert m (hashFn obj) obj)
    | .error e => .error e

/-- The full `Packet::try_from` pass: fold the entries in stream order,
threading the hash-keyed object map; the first error aborts the parse. -/
def processEntries (hashFn : Object → List Nat) : ObjMap → List PackEntry → Except DErr ObjMap
  | m, [] => .ok m
  | m, e :: es =>
    match stepEntry hashFn m e with
    | .ok m2 => processEntries hashFn m2 es
    | .error err => .error err

/-- Error kinds of the clone driver. -/
inductive CloneErr
  | io
  | network
  | protocol
  | noHead
deriving DecidableEq

/-- The externally visible actions of `git_clone` of main.rs, in
particular the filesystem actions on the destination directory. The
vocabulary includes recursive removal of the destination so that its
absence from a trace is observable. -/
inductive CloneAction
  | createDst
  | initGitDirs
  | httpGetRefs
  | httpPostUploadPack
  | materializeTree
  | persistObjects
  | removeDstRecursive
deriving DecidableEq

/-- Results of the external calls `git_clone` makes, in program order:
`create_dir_all(dst)`, `init(dst)`, `fetch_refs`, `fetch_objects`,
`build_from_head` and the persist loop. Refs are (name, hash) pairs of
byte strings. -/
structure CloneEnv where
  createDir : Except CloneErr Unit
  initRepo : Except CloneErr Unit
  fetchRefs : Except CloneErr (List (List Nat × List Nat))
  fetchObjects : Except CloneErr ObjMap
  buildHead : Except CloneErr Unit
  persistAll : Except CloneErr Unit

/-- ASCII bytes of `HEAD`. -/
def headName : List Nat := [72, 69, 65, 68]

/-- `git_clone` of main.rs (lines 195-215): create the destination,
init the repository layout in it, fetch the ref advertisement, find the
`HEAD` ref (its absence is the `no HEADs in refs` error), fetch and
parse the pack, materialize the working tree, persist every object.
Every failure propagates through `?` immediately; the returned trace
records the actions performed up to that point. The source contains no
`remove_dir_all` call on any path. -/
def git_clone (env : CloneEnv) : Except CloneErr Unit × List CloneAction :=
  match env.createDir with
  | .error e => (.error e, [.createDst])
  | .ok _ =>
    match env.initRepo with
    | .error e => (.error e, [.createDst, .initGitDirs])
    | .ok _ =>
      match env.fetchRefs with
      | .error e => (.error e, [.createDst, .initGitDirs, .httpGetRefs])
      | .ok refs =>
        match refs.find? (fun p => p.1 == headName) with
        | none => (.error .noHead, [.createDst, .initGitDirs, .httpGetRefs])
        | some _ =>
          match env.fetchObjects with
          | .error e => (.error e, [.createDst, .initGitDirs, .httpGetRefs, .httpPostUploadPack])
          | .ok _ =>
            match env.buildHead with
            | .error e =>
              (.error e,
               [.createDst, .initGitDirs, .httpGetRefs, .httpPostUploadPack, .materializeTree])
            | .ok _ =>
              match env.persistAll with
              | .error e =>
                (.error e,
                 [.createDst, .initGitDirs, .httpGetRefs, .httpPostUploadPack,
                  .materializeTree, .persistObjects])
              | .ok _ =>
                (.ok (),
                 [.createDst, .initGitDirs, .httpGetRefs, .httpPostUploadPack,
                  .materializeTree, .persistObjects])

/-- A clone environment whose ref fetch fails with a network error after
the destination has been created. -/
def cloneEnvFailRefs : CloneEnv :=
  ⟨.ok (), .ok (), .error .network, .ok [], .ok (), .ok ()⟩

/-- Error of `cat_file` of main.rs: `String::from_utf8` rejecting a
non-UTF-8 body. -/
inductive CatErr
  | invalidUtf8
deriving DecidableEq

/-- `cat_file` of main.rs (lines 105-109), given the loaded object:
`String::from_utf8(obj.body)?` succeeds exactly on valid UTF-8 and
preserves the bytes, which `print!` then writes to stdout. -/
def cat_file (obj : Object) : Except CatErr (List Nat) :=
  if isValidUtf8 obj.body then .ok obj.body else .error .invalidUtf8

/-- The externally visible actions of `hash_object` of main.rs: reading
the input file and persisting an object into `.git/objects`. -/
inductive StoreAction
  | readSourceFile
  | persistObject
deriving DecidableEq

/-- `hash_object` of main.rs (lines 111-119), given the file contents:
build a blob, persist it only when `-w` was passed, return the hash
(`hashFn` is the external SHA-1 of the framed object). The trace records
the store actions performed. -/
def hash_object (hashFn : Object → List Nat) (write : Bool) (fileBody : List Nat) :
    List Nat × List StoreAction :=
  if write then (hashFn ⟨.blob, fileBody⟩, [.readSourceFile, .persistObject])
  else (hashFn ⟨.blob, fileBody⟩, [.readSourceFile])

/-- Result of `PacketLine::try_from`: an `Ok` payload, an `Err` return
value, or a panic (the out-of-bounds slice `value[4..len]` when
`0 < len < 4`). -/
inductive PLResult
  | ok (data : List Nat)
  | err
  | panicked
deriving DecidableEq

/-- One hexadecimal digit. -/
def hexDigit? (c : Nat) : Option Nat :=
  if 48 ≤ c ∧ c ≤ 57 then some (c - 48)
  else if 97 ≤ c ∧ c ≤ 102 then some (c - 87)
  else if 65 ≤ c ∧ c ≤ 70 then some (c - 55)
  else none

/-- Nonempty run of hex digits, most significant first. -/
def parseHexDigits : Nat → List Nat → Option Nat
  | _, [] => none
  | acc, [c] => (hexDigit? c).map (acc * 16 + ·)
  | acc, c :: cs =>
    match hexDigit? c with
    | some d => parseHexDigits (acc * 16 + d) cs
    | none => none

/-- `u32::from_str_radix(s, 16)` composed with `str::from_utf8`: an
optional leading `+` sign then at least one hex digit; any other byte —
including one making the string invalid UTF-8 — is an error. -/
def from_str_radix16 (s : List Nat) : Option Nat :=
  match s with
  | [] => none
  | c :: rest => if c = 43 then parseHexDigits 0 rest else parseHexDigits 0 (c :: rest)

/-- `PacketLine::try_from` of packet.rs (lines 233-248): bail when fewer
than 4 bytes remain, parse the 4-char hex length, bail when
`len + 4 > value.len()`, yield the flush packet on length 0, otherwise
slice `value[4..len]` — which panics when `0 < len < 4` because the
slice start exceeds its end. -/
def PacketLine.tryFrom (value : List Nat) : PLResult :=
  if value.length < 4 then .err
  else
    match from_str_radix16 (value.take 4) with
    | none => .err
    | some len =>
      if value.length < len + 4 then .err
      else if len = 0 then .ok []
      else if 4 ≤ len then .ok ((value.take len).drop 4)
      else .panicked

instance {ε α : Type} [DecidableEq ε] [DecidableEq α] : DecidableEq (Except ε α) :=
  fun x y =>
    match x, y with
    | .ok a, .ok b =>
      if h : a = b then .isTrue (by rw [h]) else .isFalse (fun hh => h (Except.ok.inj hh))
    | .error e, .error f =>
      if h : e = f then .isTrue (by rw [h]) else .isFalse (fun hh => h (Except.error.inj hh))
    | .ok _, .error _ => .isFalse (fun hh => Except.noConfusion hh)
    | .error _, .ok _ => .isFalse (fun hh => Except.noConfusion hh)

/-- C1 (code_bug): the specification says a ref-delta result inherits the
kind of its base, but `calculate_delta` builds the result with
`ObjectKind::Blob` hardcoded (packet.rs line 189). Against a base of kind
tree and the trivial delta payload `[0,0]` (source size 0, target size 0,
no instructions) the produced object has kind blob, not tree. -/
theorem c1_delta_kind_is_always_blob :
    calculate_delta [0, 0] [5] [([5], ⟨ObjectKind.tree, [1, 2, 3]⟩)] =
      .ok ⟨ObjectKind.blob, []⟩ ∧ ObjectKind.blob ≠ ObjectKind.tree := by
  decide

/-- C2 (code_bug): the delta copy instruction with all size bits clear
assembles a length of 0 and the source copies 0 bytes — there is no
`0x10000` special case in packet.rs lines 163-178. The payload
`[0, 0, 0x80]` (sizes 0, then a copy instruction with no offset and no
size bytes) produces an empty body, not 65536 bytes of the base. -/
theorem c2_size_zero_copies_zero_bytes :
    calculate_delta [0, 0, 128] [5] [([5], ⟨ObjectKind.blob, [1, 2, 3]⟩)] =
      .ok ⟨ObjectKind.blob, []⟩ ∧ (List.length ([] : List Nat)) ≠ 65536 := by
  decide

/-- C3 (code_bug): for the header bytes `[0x90, 0x80, 0x02]` (type code 1,
two continuation bytes) the source decodes size
`0 + 0*2^4 + 2*2^12 = 8192`, because `shift_count += 8` at packet.rs
line 75; the claimed format `size_low | next7 << 4 | next7 << 11` gives
`2 * 2^11 = 4096`. -/
theorem c3_header_size_shift_grows_by_eight :
    decodeObjHeader [144, 128, 2] 0 = some (1, 8192, 3) ∧ 8192 ≠ 2 * 2 ^ 11 := by
  decide

/-- First occurrence of `a` after a prefix that avoids it. -/
theorem pos_append_self {a : Nat} (xs ys : List Nat) (h : a ∉ xs) :
    position a (xs ++ a :: ys) = some xs.length := by
  induction xs with
  | nil => simp [position]
  | cons b bs ih =>
    have hb : b ≠ a := fun e => h (by simp [e])
    have h2 : a ∉ bs := fun e => h (List.mem_cons_of_mem _ e)
    simp [position, hb, ih h2]

/-- Taking exactly the length of the left part of an append. -/
theorem take_app (xs ys : List Nat) : (xs ++ ys).take xs.length = xs := by
  induction xs with
  | nil => simp
  | cons b bs ih => simp [ih]

/-- Dropping the left part of an append plus `n` more. -/
theorem drop_app (xs ys : List Nat) (n : Nat) :
    (xs ++ ys).drop (xs.length + n) = ys.drop n := by
  induction xs with
  | nil => simp
  | cons b bs ih =>
    have harith : bs.length + 1 + n = (bs.length + n) + 1 := by omega
    simp only [List.cons_append, List.length_cons, harith, List.drop_succ_cons]
    exact ih

/-- Taking one byte past the left part of an append. -/
theorem take_app_one (xs : List Nat) (y : Nat) (t : List Nat) :
    (xs ++ y :: t).take (xs.length + 1) = xs ++ [y] := by
  induction xs with
  | nil => simp
  | cons b bs ih => simp [ih]

/-- A successful decimal digit parse bounds the byte. -/
theorem decDigit?_bounds {c d : Nat} (h : decDigit? c = some d) : 48 ≤ c ∧ c ≤ 57 := by
  by_cases hc : 48 ≤ c ∧ c ≤ 57
  · exact hc
  · simp [decDigit?, hc] at h

/-- Every byte of a successfully parsed digit run is a decimal digit. -/
theorem parseDigits_digits : ∀ (s : List Nat) (acc n : Nat),
    parseDigits acc s = some n → ∀ c ∈ s, 48 ≤ c ∧ c ≤ 57 := by
  intro s
  induction s with
  | nil => intro acc n h; simp [parseDigits] at h
  | cons c cs ih =>
    intro acc n h d hd
    cases cs with
    | nil =>
      rcases List.mem_singleton.mp hd with rfl
      cases hdc : decDigit? d with
      | none => simp [parseDigits, hdc] at h
      | some v => exact decDigit?_bounds hdc
    | cons c2 cs2 =>
      cases hdc : decDigit? c with
      | none => simp [parseDigits, hdc] at h
      | some v =>
        rcases List.mem_cons.mp hd with rfl | hmem
        · exact decDigit?_bounds hdc
        · exact ih (acc * 10 + v) n (by simpa [parseDigits, hdc] using h) d hmem

/-- Every byte of a successfully parsed decimal is a `+` sign or digit. -/
theorem parseDecimal_digits {s : List Nat} {n : Nat} (h : parseDecimal s = some n) :
    ∀ c ∈ s, c = 43 ∨ (48 ≤ c ∧ c ≤ 57) := by
  cases s with
  | nil => simp [parseDecimal] at h
  | cons c rest =>
    intro d hd
    by_cases hc : c = 43
    · subst hc
      rcases List.mem_cons.mp hd with rfl | hmem
      · exact Or.inl rfl
      · exact Or.inr (parseDigits_digits rest 0 n (by simpa [parseDecimal] using h) d hmem)
    · exact Or.inr (parseDigits_digits (c :: rest) 0 n (by simpa [parseDecimal, hc] using h) d hd)

/-- The kind names contain no space byte. -/
theorem kindBytes_no_space (k : ObjectKind) : (32 : Nat) ∉ kindBytes k := by
  cases k <;> decide

/-- The kind names contain no NUL byte. -/
theorem kindBytes_no_nul (k : ObjectKind) : (0 : Nat) ∉ kindBytes k := by
  cases k <;> decide

/-- Kind parsing recovers each kind from its name bytes. -/
theorem kind_try_from_kindBytes (k : ObjectKind) : kind_try_from (kindBytes k) = .ok k := by
  cases k <;> rfl

/-- C4 (counterexample): on the framed content `blob 1\0ab` — declared
length 1, two bytes after the NUL — the loose-object read path of
object.rs returns only the declared single byte `a` as the body, not all
bytes `ab` after the first NUL as the claim states. -/
theorem c4_counterexample :
    Object.new_object_from [98, 108, 111, 98, 32, 49, 0, 97, 98] =
      .ok ⟨ObjectKind.blob, [97]⟩ ∧ [97] ≠ [97, 98] := by
  decide

/-- C4 (amended): for a well-framed buffer `<kind> <digits>\0<rest>`, the
legacy lib.rs `Object::load` returns all of `rest`, while the
object.rs read path (`Object::load` → `new_object_from`, the one the
binary uses) returns exactly the declared number of bytes — truncating
extra bytes and failing with an eof error when fewer remain. -/
theorem c4_amended (k : ObjectKind) (ds rest : List Nat) (n : Nat)
    (hds : parseDecimal ds = some n) :
    Object.load (kindBytes k ++ 32 :: (ds ++ 0 :: rest)) = .ok ⟨k, rest⟩ ∧
    Object.new_object_from (kindBytes k ++ 32 :: (ds ++ 0 :: rest)) =
      (if n ≤ rest.length then .ok ⟨k, rest.take n⟩ else .error .eof) := by
  have hd := parseDecimal_digits hds
  have h32 : (32 : Nat) ∉ ds := fun hm => by rcases hd 32 hm with h | h <;> omega
  have h0 : (0 : Nat) ∉ ds := fun hm => by rcases hd 0 hm with h | h <;> omega
  have hk32 := kindBytes_no_space k
  have hk0 := kindBytes_no_nul k
  have hassoc : kindBytes k ++ 32 :: (ds ++ 0 :: rest) = (kindBytes k ++ 32 :: ds) ++ 0 :: rest := by
    simp
  have hnot : (0 : Nat) ∉ kindBytes k ++ 32 :: ds := by
    intro hmem
    rcases List.mem_append.mp hmem with hmm | hmm
    · exact hk0 hmm
    · rcases List.mem_cons.mp hmm with hmm | hmm
      · omega
      · exact h0 hmm
  have e1 : position 32 (kindBytes k ++ 32 :: (ds ++ 0 :: rest)) = some (kindBytes k).length :=
    pos_append_self _ _ hk32
  have e2 : (kindBytes k ++ 32 :: (ds ++ 0 :: rest)).take (kindBytes k).length = kindBytes k :=
    take_app _ _
  constructor
  · have e3 : position 0 (kindBytes k ++ 32 :: (ds ++ 0 :: rest)) =
        some (kindBytes k ++ 32 :: ds).length := by
      rw [hassoc]; exact pos_append_self _ _ hnot
    have e4 : (kindBytes k ++ 32 :: (ds ++ 0 :: rest)).drop ((kindBytes k ++ 32 :: ds).length + 1) =
        rest := by
      rw [hassoc]
      have h5 := drop_app (kindBytes k ++ 32 :: ds) (0 :: rest) 1
      simpa using h5
    simp [Object.load, e1, e2, kind_try_from_kindBytes, e3]
    have h6 := e4
    simp at h6
    simpa using h6
  · have e5 : (kindBytes k ++ 32 :: (ds ++ 0 :: rest)).take ((kindBytes k).length + 1) =
        kindBytes k ++ [32] := take_app_one _ _ _
    have e6 : (kindBytes k ++ 32 :: (ds ++ 0 :: rest)).drop ((kindBytes k).length + 1) =
        ds ++ 0 :: rest := by
      simp
    have e7 : position 0 (ds ++ 0 :: rest) = some ds.length := pos_append_self _ _ h0
    have e8 : (ds ++ 0 :: rest).take (ds.length + 1) = ds ++ [0] := take_app_one _ _ _
    have e9 : (ds ++ 0 :: rest).drop (ds.length + 1) = rest := by
      simp
    simp [Object.new_object_from, read_until, e1, e5, e6, e7, e8, e9,
          List.dropLast_concat, kind_try_from_kindBytes, hds]

/-- C4 (witness): the amended statement at the concrete framing
`blob 1\0ab`. -/
theorem c4_witness :
    parseDecimal [49] = some 1 ∧
    (Object.load (kindBytes .blob ++ 32 :: ([49] ++ 0 :: [97, 98])) = .ok ⟨.blob, [97, 98]⟩ ∧
     Object.new_object_from (kindBytes .blob ++ 32 :: ([49] ++ 0 :: [97, 98])) =
       (if 1 ≤ [97, 98].length then .ok ⟨.blob, [97, 98].take 1⟩ else .error .eof)) :=
  ⟨by decide, c4_amended .blob [49] [97, 98] 1 (by decide)⟩

/-- C7 (counterexample): in the environment whose ref fetch fails after
the destination was created, the driver returns the network error with
the destination created and never removed — the claimed recursive
cleanup does not happen. -/
theorem c7_counterexample :
    (git_clone cloneEnvFailRefs).1 = .error CloneErr.network ∧
    CloneAction.createDst ∈ (git_clone cloneEnvFailRefs).2 ∧
    CloneAction.removeDstRecursive ∉ (git_clone cloneEnvFailRefs).2 := by
  decide

/-- C7 (amended): on every execution — error or success — the clone
driver never removes the destination directory: no cleanup of a partial
clone target is performed. -/
theorem c7_amended (env : CloneEnv) :
    CloneAction.removeDstRecursive ∉ (git_clone env).2 := by
  unfold git_clone
  repeat' split
  all_goals simp

/-- C8 (counterexample): for a stored object whose body is the single
byte `0xFF` (not valid UTF-8), `cat_file` fails with the
`String::from_utf8` error instead of printing the body. -/
theorem c8_counterexample :
    cat_file ⟨ObjectKind.blob, [255]⟩ = .error CatErr.invalidUtf8 := by
  decide

/-- C8 (amended): for every stored object whose body is valid UTF-8,
`cat_file` succeeds and yields exactly the body bytes; non-UTF-8 bodies
are rejected by the `String::from_utf8` conversion. -/
theorem c8_amended (obj : Object) (h : isValidUtf8 obj.body = true) :
    cat_file obj = .ok obj.body := by
  simp [cat_file, h]

/-- C8 (witness): the amended statement on the body `hello\n`. -/
theorem c8_witness :
    isValidUtf8 [104, 101, 108, 108, 111, 10] = true ∧
    cat_file ⟨ObjectKind.blob, [104, 101, 108, 108, 111, 10]⟩ =
      .ok [104, 101, 108, 108, 111, 10] :=
  ⟨by decide, c8_amended ⟨ObjectKind.blob, [104, 101, 108, 108, 111, 10]⟩ (by decide)⟩

/-- C9 (confirmed): without the `-w` flag, `hash_object` returns the
blob hash of the file contents and its action trace contains no persist
into the object store — `.git/objects` is untouched. -/
theorem c9_no_write_without_flag (hashFn : Object → List Nat) (fileBody : List Nat) :
    (hash_object hashFn false fileBody).1 = hashFn ⟨.blob, fileBody⟩ ∧
    StoreAction.persistObject ∉ (hash_object hashFn false fileBody).2 := by
  simp [hash_object]

/-- C10 (counterexample): the 5-byte stream `0002x` declares length 2,
yet the decoder returns the `packet line size greater than the byte
stream` error value — contradicting the claim that no error value is
returned for any stream of length at least 5 declaring 1, 2 or 3. -/
theorem c10_counterexample :
    from_str_radix16 ([48, 48, 48, 50, 120].take 4) = some 2 ∧
    5 ≤ [48, 48, 48, 50, 120].length ∧
    PacketLine.tryFrom [48, 48, 48, 50, 120] = PLResult.err := by
  decide

/-- C10 (amended): for a stream whose first four bytes decode to a
declared length `n` of 1, 2 or 3: when the stream is shorter than
`n + 4` the decoder returns the size-greater-than-stream error value,
and otherwise it reaches the out-of-bounds slice `value[4..n]` — a
panic, neither payload nor error value. -/
theorem c10_amended (value : List Nat) (n : Nat)
    (h1 : from_str_radix16 (value.take 4) = some n) (h2 : 1 ≤ n) (h3 : n ≤ 3) :
    PacketLine.tryFrom value =
      if value.length < n + 4 then PLResult.err else PLResult.panicked := by
  by_cases hlen : value.length < 4
  · have hlt : value.length < n + 4 := by omega
    simp [PacketLine.tryFrom, hlen, hlt]
  · simp only [PacketLine.tryFrom, if_neg hlen, h1]
    by_cases hl2 : value.length < n + 4
    · simp [hl2]
    · have hn0 : ¬(n = 0) := by omega
      have hn4 : ¬(4 ≤ n) := by omega
      simp [hl2, hn0, hn4]

/-- C10 (witness): the amended statement on the 6-byte stream `0002xx`,
which reaches the panicking slice. -/
theorem c10_witness :
    from_str_radix16 ([48, 48, 48, 50, 120, 120].take 4) = some 2 ∧
    (PacketLine.tryFrom [48, 48, 48, 50, 120, 120] =
      if [48, 48, 48, 50, 120, 120].length < 2 + 4 then PLResult.err else PLResult.panicked) :=
  ⟨by decide, c10_amended [48, 48, 48, 50, 120, 120] 2 (by decide) (by decide) (by decide)⟩

/-- A serialized node list is at least as long as the node list. -/
theorem emitNodes_length (ns : List Node) : ns.length ≤ (emitNodes ns).length := by
  induction ns with
  | nil => simp [emitNodes]
  | cons n rest ih =>
    simp only [emitNodes, emitNode, List.length_cons, List.length_append]
    omega

/-- Parsing one well-formed serialized node consumes exactly that node
and continues on the tail. -/
theorem parse_step (mode : List Nat) (kind : NodeKind) (name hash tail : List Nat) (f : Nat)
    (hm32 : (32 : Nat) ∉ mode) (hmu : isValidUtf8 mode = true)
    (hmk : modeToKind mode = some kind)
    (hnu : isValidUtf8 name = true) (hn0 : (0 : Nat) ∉ name) (hh : hash.length = 20) :
    parseTreeNodes (f + 1) (mode ++ 32 :: (name ++ 0 :: (hash ++ tail))) =
      match parseTreeNodes f tail with
      | .ok nodes => .ok (⟨name, kind, hash⟩ :: nodes)
      | .error e => .error e := by
  have e1 : position 32 (mode ++ 32 :: (name ++ 0 :: (hash ++ tail))) = some mode.length :=
    pos_append_self _ _ hm32
  have e2 : (mode ++ 32 :: (name ++ 0 :: (hash ++ tail))).take mode.length = mode :=
    take_app _ _
  have e3 : (mode ++ 32 :: (name ++ 0 :: (hash ++ tail))).drop (mode.length + 1) =
      name ++ 0 :: (hash ++ tail) := by simp
  have e4 : position 0 (name ++ 0 :: (hash ++ tail)) = some name.length :=
    pos_append_self _ _ hn0
  have e5 : (name ++ 0 :: (hash ++ tail)).take name.length = name := take_app _ _
  have e6 : (name ++ 0 :: (hash ++ tail)).drop (name.length + 1) = hash ++ tail := by simp
  have e7 : 20 ≤ (hash ++ tail).length := by simp [hh]
  have e8 : (hash ++ tail).take 20 = hash := by rw [← hh]; exact take_app _ _
  have e9 : (hash ++ tail).drop 20 = tail := by rw [← hh]; simp
  simp [parseTreeNodes, e1, e2, e3, e4, e5, e6, e7, e8, e9, hmu, hnu, hmk]
  intro hcontra
  exfalso
  omega

/-- Parsing the serialization of one canonical node on top of an
already round-tripping tail. -/
theorem parse_one_canonical (modeList : List Nat) (kind : NodeKind) (n : Node)
    (rest : List Node) (f2 : Nat)
    (hmode : octalAscii n.kind.mode = modeList)
    (hm32 : (32 : Nat) ∉ modeList) (hmu : isValidUtf8 modeList = true)
    (hmk : modeToKind modeList = some kind) (hkn : kind = n.kind)
    (hnu : isValidUtf8 n.name = true) (hn0 : (0 : Nat) ∉ n.name) (hh : n.hash.length = 20)
    (hih : parseTreeNodes f2 (emitNodes rest) = .ok rest) :
    parseTreeNodes (f2 + 1) (emitNodes (n :: rest)) = .ok (n :: rest) := by
  have hrw : emitNodes (n :: rest) =
      modeList ++ 32 :: (n.name ++ 0 :: (n.hash ++ emitNodes rest)) := by
    rw [← hmode]
    simp [emitNodes, emitNode]
  rw [hrw, parse_step modeList kind n.name n.hash (emitNodes rest) f2 hm32 hmu hmk hnu hn0 hh,
      hih, hkn]

/-- Round-trip of the node-list serialization: parsing the bytes emitted
for canonical nodes with UTF-8, NUL-free names and 20-byte hashes gives
back the node list. -/
theorem parseTreeNodes_emitNodes (ns : List Node)
    (h : ∀ n ∈ ns, canonicalKind n.kind = true ∧ isValidUtf8 n.name = true ∧
        (0 : Nat) ∉ n.name ∧ n.hash.length = 20) :
    ∀ f : Nat, ns.length < f → parseTreeNodes f (emitNodes ns) = .ok ns := by
  induction ns with
  | nil =>
    intro f hf
    cases f with
    | zero => omega
    | succ f2 => simp [emitNodes, parseTreeNodes, position]
  | cons n rest ih =>
    intro f hf
    obtain ⟨hc, hnu, hn0, hh⟩ := h n (List.mem_cons_self _ _)
    have hrest := fun m hm => h m (List.mem_cons_of_mem _ hm)
    cases f with
    | zero => omega
    | succ f2 =>
      have hlt : rest.length < f2 := by
        simp only [List.length_cons] at hf
        omega
      have hih := ih hrest f2 hlt
      cases hnk : n.kind with
      | dir m =>
        have hm : m = 16384 := by
          rw [hnk] at hc
          simpa [canonicalKind] using hc
        exact parse_one_canonical [52, 48, 48, 48, 48] (.dir 16384) n rest f2
          (by rw [hnk, hm]; decide) (by decide) (by decide) (by decide)
          (by rw [hnk, hm]) hnu hn0 hh hih
      | file m =>
        have hm : m = 33188 ∨ m = 33261 := by
          rw [hnk] at hc
          simpa [canonicalKind] using hc
        rcases hm with hm | hm
        · exact parse_one_canonical [49, 48, 48, 54, 52, 52] (.file 33188) n rest f2
            (by rw [hnk, hm]; decide) (by decide) (by decide) (by decide)
            (by rw [hnk, hm]) hnu hn0 hh hih
        · exact parse_one_canonical [49, 48, 48, 55, 53, 53] (.file 33261) n rest f2
            (by rw [hnk, hm]; decide) (by decide) (by decide) (by decide)
            (by rw [hnk, hm]) hnu hn0 hh hih
      | symlink m =>
        have hm : m = 40960 := by
          rw [hnk] at hc
          simpa [canonicalKind] using hc
        exact parse_one_canonical [49, 50, 48, 48, 48, 48] (.symlink 40960) n rest f2
          (by rw [hnk, hm]; decide) (by decide) (by decide) (by decide)
          (by rw [hnk, hm]) hnu hn0 hh hih

/-- C5 (counterexample): a tree whose single node has the canonical file
mode `100644` but the non-UTF-8 name byte `0xFF` does not round-trip:
`Tree::try_from` rejects the emitted body at `str::from_utf8` on the
name, so `parse(emit(tree))` is an error, not the tree. -/
theorem c5_counterexample :
    (∀ n ∈ (⟨[⟨[255], .file 33188, List.replicate 20 0⟩]⟩ : GitTree).nodes,
        canonicalKind n.kind = true) ∧
    GitTree.tryFrom ⟨ObjectKind.tree,
        emitTree ⟨[⟨[255], .file 33188, List.replicate 20 0⟩]⟩⟩ ≠
      .ok ⟨[⟨[255], .file 33188, List.replicate 20 0⟩]⟩ := by
  decide

/-- C5 (amended): `parse(emit(tree)) = tree` for every tree whose nodes
all have canonical modes (`40000`, `100644`, `100755`, `120000`), names
that are valid UTF-8 and contain no NUL byte, and 20-byte hashes. -/
theorem c5_amended (t : GitTree)
    (h : ∀ n ∈ t.nodes, canonicalKind n.kind = true ∧ isValidUtf8 n.name = true ∧
        (0 : Nat) ∉ n.name ∧ n.hash.length = 20) :
    GitTree.tryFrom ⟨ObjectKind.tree, emitTree t⟩ = .ok t := by
  obtain ⟨ns⟩ := t
  have hlt : ns.length < (emitNodes ns).length + 1 := Nat.lt_succ_of_le (emitNodes_length ns)
  simp only [GitTree.tryFrom, emitTree]
  rw [parseTreeNodes_emitNodes ns h ((emitNodes ns).length + 1) hlt]

/-- C5 (witness): the amended round-trip on a concrete one-node tree
with canonical mode `100644`, ASCII name `a` and a 20-byte hash. -/
theorem c5_witness :
    (∀ n ∈ (⟨[⟨[97], .file 33188, List.replicate 20 1⟩]⟩ : GitTree).nodes,
        canonicalKind n.kind = true ∧ isValidUtf8 n.name = true ∧ (0 : Nat) ∉ n.name ∧
        n.hash.length = 20) ∧
    GitTree.tryFrom ⟨ObjectKind.tree,
        emitTree ⟨[⟨[97], .file 33188, List.replicate 20 1⟩]⟩⟩ =
      .ok ⟨[⟨[97], .file 33188, List.replicate 20 1⟩]⟩ :=
  ⟨by decide, c5_amended ⟨[⟨[97], .file 33188, List.replicate 20 1⟩]⟩ (by decide)⟩

/-- The delta instruction loop never produces a missing-base error: its
only failures are panics (out-of-range slices). -/
theorem deltaLoop_not_missingBase :
    ∀ (fuel : Nat) (rem base acc bh : List Nat),
      deltaLoop fuel rem base acc ≠ .error (.missingBase bh) := by
  intro fuel
  induction fuel with
  | zero =>
    intro rem base acc bh
    cases rem <;> simp [deltaLoop]
  | succ f ih =>
    intro rem base acc bh
    cases rem with
    | nil => simp [deltaLoop]
    | cons instr rest =>
      simp only [deltaLoop]
      repeat' split
      all_goals first
        | exact ih _ _ _ _
        | simp

/-- Processing an appended entry list is processing the first part and
continuing with its map. -/
theorem processEntries_append (hashFn : Object → List Nat) (m0 : ObjMap)
    (xs ys : List PackEntry) :
    processEntries hashFn m0 (xs ++ ys) =
      match processEntries hashFn m0 xs with
      | .ok m1 => processEntries hashFn m1 ys
      | .error e => .error e := by
  induction xs generalizing m0 with
  | nil => simp [processEntries]
  | cons e es ih =>
    simp only [List.cons_append, processEntries]
    cases stepEntry hashFn m0 e with
    | ok m2 => exact ih m2
    | error err => rfl

/-- C6 (confirmed): when the entries before a ref-delta all decode,
producing the map `m`, the parse of the whole stream processes the
ref-delta against exactly `m` — the hash-keyed objects of the earlier
positions — and (provided its two size headers are readable) the delta
resolution fails with the missing-base error precisely when its base
hash has no entry in `m`. -/
theorem c6_refdelta_resolution (hashFn : Object → List Nat) (pre post : List PackEntry)
    (b buf : List Nat) (m : ObjMap) (r : List Nat)
    (h1 : processEntries hashFn [] pre = .ok m) (h2 : skipSizes buf = some r) :
    (processEntries hashFn [] (pre ++ PackEntry.refDelta b buf :: post) =
      match stepEntry hashFn m (PackEntry.refDelta b buf) with
      | .ok m2 => processEntries hashFn m2 post
      | .error e => .error e) ∧
    (calculate_delta buf b m = .error (DErr.missingBase b) ↔ mapLookup m b = none) := by
  obtain ⟨r1, hr1, hr2⟩ : ∃ r1, skipVarint buf = some r1 ∧ skipVarint r1 = some r := by
    unfold skipSizes at h2
    cases hv : skipVarint buf with
    | none => rw [hv] at h2; simp at h2
    | some r1 =>
      rw [hv] at h2
      simp at h2
      exact ⟨r1, rfl, h2⟩
  constructor
  · rw [processEntries_append, h1]
    simp [processEntries]
  · simp only [calculate_delta, hr1, hr2]
    cases hl : mapLookup m b with
    | none => simp
    | some baseObj =>
      show (match deltaLoop (r.length + 1) r baseObj.body [] with
            | Except.ok body => (Except.ok ⟨ObjectKind.blob, body⟩ : Except DErr Object)
            | Except.error e => Except.error e) =
          Except.error (DErr.missingBase b) ↔ some baseObj = none
      constructor
      · intro hcontra
        cases hdl : deltaLoop (r.length + 1) r baseObj.body [] with
        | ok body => rw [hdl] at hcontra; simp at hcontra
        | error e =>
          rw [hdl] at hcontra
          have he : e = DErr.missingBase b := by simpa using hcontra
          rw [he] at hdl
          exact absurd hdl (deltaLoop_not_missingBase _ _ _ _ b)
      · intro hcontra
        simp at hcontra

/-- C6 (witness): the resolution statement at the empty prefix and the
delta payload `[0,0]`, whose base hash `[7]` is absent from the empty
map, so resolution is exactly the missing-base error. -/
theorem c6_witness :
    (processEntries (fun o => o.body) [] [] = .ok ([] : ObjMap) ∧
     skipSizes [0, 0] = some []) ∧
    ((processEntries (fun o => o.body) [] ([] ++ PackEntry.refDelta [7] [0, 0] :: []) =
      match stepEntry (fun o => o.body) ([] : ObjMap) (PackEntry.refDelta [7] [0, 0]) with
      | .ok m2 => processEntries (fun o => o.body) m2 []
      | .error e => .error e) ∧
     (calculate_delta [0, 0] [7] ([] : ObjMap) = .error (DErr.missingBase [7]) ↔
      mapLookup ([] : ObjMap) [7] = none)) :=
  ⟨⟨rfl, rfl⟩, c6_refdelta_resolution (fun o => o.body) [] [] [7] [0, 0] [] [] rfl rfl⟩
